/-
Verification of the gym-simulation resolver, history trimmer, streaming agent
loop and stream-retry wrapper of the ICPC coach agent (src/src/agent.ts),
against the repository specification.

The TypeScript source is shallowly embedded: every function below is a direct
translation of the corresponding source function, with JavaScript optional
fields rendered as Option, JavaScript numbers of the domain (ids, epoch
seconds, counts) rendered as Nat, point scores as Int, and the two network
calls of the resolver (user.status pages, contest.list, contest.standings)
supplied as explicit inputs in a ResolverEnv record.
-/
import Mathlib

/-! ### Data model (src/src/types.ts)

Fields are restricted to the ones the embedded functions read.  TypeScript
declares some of them required (author, members, problemResults, rows), but
agent.ts guards every access with optional chaining, so they are embedded as
Option exactly as the code treats them. -/

inductive ParticipantType
  | CONTESTANT
  | PRACTICE
  | VIRTUAL
  | MANAGER
  | OUT_OF_COMPETITION
deriving DecidableEq

structure CFMember where
  handle : String
deriving DecidableEq

structure CFParty where
  participantType : ParticipantType
  teamName : Option String
  members : Option (List CFMember)
  startTimeSeconds : Option Nat
deriving DecidableEq

structure CFSubmission where
  contestId : Option Nat
  creationTimeSeconds : Nat
  author : Option CFParty
deriving DecidableEq

structure CFContest where
  id : Nat
  name : String
  durationSeconds : Nat
  difficulty : Option Nat
deriving DecidableEq

structure CFProblem where
  index : String
  name : String
deriving DecidableEq

/-- Points of one problem in a ranklist row.  The source reads
`(p.points ?? 0) > 0`; points is embedded as Option Int. -/
structure CFProblemResult where
  points : Option Int
deriving DecidableEq

structure CFRanklistRow where
  party : Option CFParty
  rank : Nat
  problemResults : Option (List CFProblemResult)
deriving DecidableEq

structure CFStandingsResponse where
  problems : Option (List CFProblem)
  rows : Option (List CFRanklistRow)
deriving DecidableEq

/-! ### String helpers

Lean kernel reduction gets stuck on the builtin String order (String.ltb is
iterator based), so the JavaScript string primitives used by agent.ts are
embedded structurally on the underlying character lists.  JavaScript compares
strings by UTF-16 code units; for the code points appearing in Codeforces
handles this agrees with comparing Lean characters by code point. -/

/-- Lexicographic less-or-equal on character lists, by code point.  Embeds the
comparison JavaScript Array.prototype.sort() performs on strings when called
with no comparator. -/
def charsLe : List Char → List Char → Bool
  | [], _ => true
  | _ :: _, [] => false
  | a :: as, b :: bs =>
    if a.toNat < b.toNat then true
    else if b.toNat < a.toNat then false
    else charsLe as bs

def strLeB (a b : String) : Bool := charsLe a.data b.data

/-- Tests whether pat is a leading segment of s (on character lists). -/
def charsStartsWith : List Char → List Char → Bool
  | [], _ => true
  | _ :: _, [] => false
  | a :: as, b :: bs => a == b && charsStartsWith as bs

/-- pat occurs as a contiguous substring of s (on character lists). -/
def charsContains (pat : List Char) : List Char → Bool
  | [] => charsStartsWith pat []
  | c :: t => charsStartsWith pat (c :: t) || charsContains pat t

/-- Embeds JavaScript String.prototype.includes. -/
def strIncludes (s pat : String) : Bool := charsContains pat.data s.data

/-- JavaScript Array.prototype.sort() with no comparator, on handle strings.
Array.prototype.sort is stable, and a stable sort with respect to a total
preorder has a unique result, so it is embedded as insertion sort (stable)
over the code-unit order. -/
def sortHandles (hs : List String) : List String :=
  List.insertionSort (fun a b => strLeB a b = true) hs

/-! ### Resolver data (src/src/agent.ts, lines 194-211) -/

structure SimSession where
  contestId : Nat
  startTimeSeconds : Nat
  teamName : Option String
  members : List String
deriving DecidableEq

structure StandingsEntry where
  rank : Nat
  total : Option Nat
  solved : Nat
  totalProblems : Nat
deriving DecidableEq

/-- The externally visible resolved record (types.ts GymResult).  The source
field simulatedAt renders sim.startTimeSeconds as a fixed-width UTC string;
the calendar rendering is not needed by any claim and the raw seconds value is
kept instead, in simulatedAtSeconds. -/
structure GymResult where
  name : String
  link : String
  difficulty : Option String
  durationHours : Option Nat
  simulatedAtSeconds : Nat
  teamName : Option String
  members : List String
  rank : Option String
  solved : Option String
deriving DecidableEq

structure GymSimulationsResult where
  handle : String
  gyms : List GymResult
deriving DecidableEq

/-! ### Stage A — candidate filter (agent.ts lines 222-225) -/

/-- Embeds `const isGym = (s.contestId ?? 0) > 100000`. -/
def isGym (s : CFSubmission) : Bool := decide (100000 < s.contestId.getD 0)

/-- Embeds the check `s.author?.participantType === VIRTUAL`. -/
def isVirtual (s : CFSubmission) : Bool :=
  s.author.map CFParty.participantType == some ParticipantType.VIRTUAL

/-- Embeds `if (!isGym || !isVirtual) continue` — a submission survives the
filter iff both hold. -/
def isCandidate (s : CFSubmission) : Bool := isGym s && isVirtual s

/-! ### Stage B — deduplication (agent.ts lines 227-237)

The source keys the session Map by the string `${s.contestId}_${startTime}`.
Decimal numerals contain no underscore and are injective, so that string key
identifies exactly the pair (contestId, startTime); the embedding keys by the
pair directly.  A JavaScript Map preserves insertion order and values()
iterates in it, so the Map is embedded as an association list in insertion
order, appended to only when the key is absent. -/

/-- Embeds `const startTime = s.author?.startTimeSeconds ?? s.creationTimeSeconds`. -/
def startTimeOf (s : CFSubmission) : Nat :=
  (s.author.bind CFParty.startTimeSeconds).getD s.creationTimeSeconds

/-- The dedup key `${s.contestId}_${startTime}` as the pair it denotes.
Inside the guarded branch contestId is present (isGym forces it positive),
which the source asserts with `s.contestId!`; the embedding uses getD 0. -/
def sessionKey (s : CFSubmission) : Nat × Nat :=
  (s.contestId.getD 0, startTimeOf s)

/-- The SimSession stored for a first-seen key (agent.ts lines 230-236). -/
def mkSession (s : CFSubmission) (startTime : Nat) : SimSession :=
  { contestId := s.contestId.getD 0
    startTimeSeconds := startTime
    teamName := s.author.bind CFParty.teamName
    members := sortHandles (((s.author.bind CFParty.members).getD []).map CFMember.handle) }

/-- One iteration of the inner loop of Stage A/B for one submission
(`if (!sessions.has(key)) sessions.set(key, {...})`). -/
def processSub (sessions : List ((Nat × Nat) × SimSession)) (s : CFSubmission) :
    List ((Nat × Nat) × SimSession) :=
  if isCandidate s then
    if sessions.any (fun e => e.1 == sessionKey s) then sessions
    else sessions ++ [(sessionKey s, mkSession s (startTimeOf s))]
  else sessions

/-- First stored session for a key, i.e. Map.get. -/
def assocFind (sessions : List ((Nat × Nat) × SimSession)) (k : Nat × Nat) :
    Option SimSession :=
  (sessions.find? (fun e => e.1 == k)).map Prod.snd

def pageSize : Nat := 100
def maxPages : Nat := 20

/-- The paging loop of Stage A (agent.ts lines 218-243): up to maxPages pages,
stop on an empty page, after a short page, or once limit * 3 sessions are
banked.  pages n is the list returned by cf.getUserSubmissions for the page
starting at index 1 + n * pageSize. -/
def scanPages (pages : Nat → List CFSubmission) (limit : Nat) :
    Nat → Nat → List ((Nat × Nat) × SimSession) → List ((Nat × Nat) × SimSession)
  | 0, _, acc => acc
  | fuel + 1, page, acc =>
    if (pages page).isEmpty then acc
    else if (pages page).length < pageSize then (pages page).foldl processSub acc
    else if limit * 3 ≤ ((pages page).foldl processSub acc).length then
      (pages page).foldl processSub acc
    else scanPages pages limit fuel (page + 1) ((pages page).foldl processSub acc)

def sessionEntries (pages : Nat → List CFSubmission) (limit : Nat) :
    List ((Nat × Nat) × SimSession) :=
  scanPages pages limit maxPages 0 []

/-- Embeds `[...sessions.values()]`. -/
def sessionsOf (pages : Nat → List CFSubmission) (limit : Nat) : List SimSession :=
  (sessionEntries pages limit).map Prod.snd

/-! ### Stage C — selection (agent.ts lines 247-250)

`.sort((a, b) => b.startTimeSeconds - a.startTimeSeconds)` orders descending
by startTimeSeconds; Array.prototype.sort is stable, and a stable sort for a
total preorder comparator has a unique result, so it is embedded as insertion
sort over the same order. -/

def sessDesc (a b : SimSession) : Prop := b.startTimeSeconds ≤ a.startTimeSeconds

instance : DecidableRel sessDesc := fun _ _ => Nat.decLe _ _

def sortedSessions (pages : Nat → List CFSubmission) (limit : Nat) : List SimSession :=
  List.insertionSort sessDesc (sessionsOf pages limit)

/-- Embeds `const top = sorted.slice(0, limit)`. -/
def topSessions (pages : Nat → List CFSubmission) (limit : Nat) : List SimSession :=
  (sortedSessions pages limit).take limit

/-! ### Stage D — contest metadata (agent.ts lines 252-255) -/

/-- gymMap is built by iterating the gym list and overwriting per id, so a
lookup returns the last catalog entry with that id, and only ids in topIds
are banked. -/
def gymLookup (gymList : List CFContest) (topIds : List Nat) (id : Nat) :
    Option CFContest :=
  if topIds.contains id then gymList.reverse.find? (fun g => g.id == id) else none

/-! ### Stage E — standings resolution (agent.ts lines 257-286) -/

def CAP : Nat := 3000

/-- Embeds `const byMember = r => r.party?.members?.some(m => sim.members.includes(m.handle))`. -/
def byMember (sim : SimSession) (r : CFRanklistRow) : Bool :=
  ((r.party.bind CFParty.members).getD []).any (fun m => sim.members.contains m.handle)

/-- The two-key match: party start time equals the session start time AND a
member handle intersects (agent.ts line 270). -/
def twoKey (sim : SimSession) (r : CFRanklistRow) : Bool :=
  (r.party.bind CFParty.startTimeSeconds == some sim.startTimeSeconds) && byMember sim r

/-- Embeds `rows.find(two-key match) ?? rows.find(byMember)`. -/
def findTeamRow (sim : SimSession) (rows : List CFRanklistRow) : Option CFRanklistRow :=
  (rows.find? (fun r => twoKey sim r)).or (rows.find? (fun r => byMember sim r))

/-- The try block of Stage E for one session: fetch standings for
sim.contestId, locate the team row, and compute the cache entry.  The catch
arm (standings unavailable) and a missing team row both leave the cache
without an entry, i.e. none.  The source keys the cache by the same
(contestId, startTimeSeconds) string key it then reads back for the same
session, so the cache is embedded as this per-session computation. -/
def resolveEntry (fetchStandings : Nat → Except String CFStandingsResponse)
    (sim : SimSession) : Option StandingsEntry :=
  match fetchStandings sim.contestId with
  | Except.error _ => none
  | Except.ok data =>
    let rows := data.rows.getD []
    match findTeamRow sim rows with
    | none => none
    | some teamRow =>
      let solved := ((teamRow.problemResults.getD []).filter (fun p => decide (0 < p.points.getD 0))).length
      let lastRank := (rows.getLast?.map CFRanklistRow.rank).getD rows.length
      let total := if rows.length < CAP then some lastRank else none
      some { rank := teamRow.rank
             total := total
             solved := solved
             totalProblems := (data.problems.getD []).length }

/-! ### Stage F — shaping (agent.ts lines 288-307) -/

/-- Embeds the star scale (repeat diff filled, 5 - diff unfilled glyphs).  For
diff > 5 the source would
raise a RangeError; Codeforces difficulty is 1..5 and Nat subtraction
truncates instead. -/
def starsOf (diff : Nat) : String :=
  String.mk (List.replicate diff '★' ++ List.replicate (5 - diff) '☆')

/-- One emitted GymResult (the body of top.map, agent.ts lines 290-305). -/
def mkGymResult (handle : String) (gymList : List CFContest) (topIds : List Nat)
    (fetchStandings : Nat → Except String CFStandingsResponse)
    (sim : SimSession) : GymResult :=
  let st := resolveEntry fetchStandings sim
  let gym := gymLookup gymList topIds sim.contestId
  { name := (gym.map CFContest.name).getD ("Gym #" ++ toString sim.contestId)
    link := "https://codeforces.com/gym/" ++ toString sim.contestId ++ "/standings"
    difficulty :=
      match gym.bind CFContest.difficulty with
      | none => none
      | some 0 => none
      | some d => some (starsOf d)
    durationHours :=
      match gym with
      | none => none
      | some g =>
        if g.durationSeconds == 0 then none
        else some ((g.durationSeconds + 1800) / 3600)
    simulatedAtSeconds := sim.startTimeSeconds
    teamName := sim.teamName
    members := if sim.members.isEmpty then [handle] else sim.members
    rank := st.map (fun e => toString e.rank)
    solved := st.map (fun e => toString e.solved ++ "/" ++ toString e.totalProblems) }

/-- The three remote calls getGymSimulations performs, as explicit inputs:
pages n is cf.getUserSubmissions(handle, 100, 1 + 100 n), gymList is
cf.getContestList(true), and standings c is
cf.getContestStandings(c, 1, 3000, [], true), with a thrown failure as
Except.error. -/
structure ResolverEnv where
  pages : Nat → List CFSubmission
  gymList : List CFContest
  standings : Nat → Except String CFStandingsResponse

/-- getGymSimulations (agent.ts lines 212-308). -/
def getGymSimulations (env : ResolverEnv) (handle : String) (limit : Nat) :
    GymSimulationsResult :=
  let entries := sessionEntries env.pages limit
  if entries.isEmpty then { handle := handle, gyms := [] }
  else
    let top := topSessions env.pages limit
    let topIds := top.map SimSession.contestId
    { handle := handle
      gyms := top.map (mkGymResult handle env.gymList topIds env.standings) }

/-! ### History trimming (agent.ts lines 373-390) -/

inductive Role
  | user
  | assistant
deriving DecidableEq

structure ConversationMessage where
  role : Role
  content : String
deriving DecidableEq

def MAX_HISTORY_TURNS : Nat := 4

/-- The pairing loop: indices 0, 2, 4, ... are inspected while i < len - 1;
(msgs[i], msgs[i+1]) is kept iff the roles are (user, assistant). -/
def mkPairs : List ConversationMessage → List (ConversationMessage × ConversationMessage)
  | u :: a :: rest =>
    (if u.role == Role.user && a.role == Role.assistant then [(u, a)] else []) ++ mkPairs rest
  | _ => []

/-- trimHistory.  The source compares `trimmed[trimmed.length - 1] !== lastMsg`
by object identity; the embedding compares structurally, which agrees whenever
the retained tail element is the same list element.  The source would push
undefined for an empty input; the empty case is out of scope of the spec and
returns the empty list here. -/
def trimHistory (msgs : List ConversationMessage) : List ConversationMessage :=
  let pairs := mkPairs msgs
  let recentPairs := pairs.drop (pairs.length - MAX_HISTORY_TURNS)
  let trimmed := (recentPairs.map (fun p => [p.1, p.2])).flatten
  match msgs.getLast? with
  | none => trimmed
  | some lastMsg =>
    if trimmed.isEmpty || !(trimmed.getLast? == some lastMsg) then trimmed ++ [lastMsg]
    else trimmed

/-- The flattened window of the (at most) MAX_HISTORY_TURNS most recent pairs,
i.e. the value of trimmed before the final-message check of trimHistory. -/
def trimCore (msgs : List ConversationMessage) : List ConversationMessage :=
  (((mkPairs msgs).drop ((mkPairs msgs).length - MAX_HISTORY_TURNS)).map
    (fun p => [p.1, p.2])).flatten

/-! ### SSE events (types.ts lines 181-188) -/

inductive SSEEvent
  | text (content : String)
  | tool_call (name : String)
  | tool_result (name : String) (success : Bool) (error : Option String)
  | retrying (waitSeconds : Nat)
  | done
  | error (message : String)
deriving DecidableEq

/-! ### Stream retry wrapper (agent.ts lines 408-431)

streamEventsWithRetry is an async generator: each attempt either yields a
list of stream items and returns, or yields some items and then raises an
error carrying an optional HTTP status and message.  The outcome of the k-th
attempt (0-based) is supplied as attempts k; the wrapper is embedded as a
trace of SSE writes, sleeps, yielded items, the re-thrown error if any, and
the number of attempts actually started. -/

structure ErrInfo where
  status : Option Nat
  message : Option String
deriving DecidableEq

/-- Embeds the rate-limit test on status 429 or a message containing the text
rate_limit. -/
def is429 (e : ErrInfo) : Bool :=
  e.status == some 429 ||
    (match e.message with
     | some m => strIncludes m "rate_limit"
     | none => false)

inductive AttemptResult (α : Type)
  | success (yielded : List α)
  | failure (yielded : List α) (err : ErrInfo)
deriving DecidableEq

structure RetryTrace (α : Type) where
  sse : List SSEEvent
  sleeps : List Nat
  yielded : List α
  thrown : Option ErrInfo
  attemptsRun : Nat
deriving DecidableEq

/-- The retry loop from a given attempt index.  remaining is the number of
retries still allowed, i.e. maxRetries - attempt, so the source guard
`is429 && attempt < maxRetries` is the (remaining = r + 1, is429 = true)
branch.  On retry it writes one retrying event with its waitSeconds, sleeps
exactly waitSeconds = min(60, 15 * (attempt + 1)), and runs the next
attempt. -/
def runRetry {α : Type} (attempts : Nat → AttemptResult α) :
    Nat → Nat → RetryTrace α
  | attempt, 0 =>
    match attempts attempt with
    | AttemptResult.success ys => ⟨[], [], ys, none, 1⟩
    | AttemptResult.failure pre e => ⟨[], [], pre, some e, 1⟩
  | attempt, r + 1 =>
    match attempts attempt with
    | AttemptResult.success ys => ⟨[], [], ys, none, 1⟩
    | AttemptResult.failure pre e =>
      if is429 e then
        ⟨SSEEvent.retrying (min 60 (15 * (attempt + 1))) ::
            (runRetry attempts (attempt + 1) r).sse,
          min 60 (15 * (attempt + 1)) :: (runRetry attempts (attempt + 1) r).sleeps,
          pre ++ (runRetry attempts (attempt + 1) r).yielded,
          (runRetry attempts (attempt + 1) r).thrown,
          1 + (runRetry attempts (attempt + 1) r).attemptsRun⟩
      else ⟨[], [], pre, some e, 1⟩

def streamEventsWithRetry {α : Type} (attempts : Nat → AttemptResult α)
    (maxRetries : Nat) : RetryTrace α :=
  runRetry attempts 0 maxRetries

/-- The source defaults maxRetries to 3. -/
def streamEventsWithRetryDefault {α : Type} (attempts : Nat → AttemptResult α) :
    RetryTrace α :=
  streamEventsWithRetry attempts 3

/-! ### Streaming agent loop termination events (agent.ts lines 394-506)

Inside the try block of streamAgent, every write to the SSE channel is one of
text (line 461), tool_call (line 457), tool_result (lines 485 and 489) or
retrying (line 424) — never done and never error.  An execution of the body
is abstracted as the list of those writes together with how it ended: normal
termination, or an exception escaping to the catch arm with a message.
streamAgent then appends the terminal writes of lines 499-505. -/

inductive LoopEvent
  | text (content : String)
  | tool_call (name : String)
  | tool_result (name : String) (success : Bool) (error : Option String)
  | retrying (waitSeconds : Nat)
deriving DecidableEq

def LoopEvent.toSSE : LoopEvent → SSEEvent
  | LoopEvent.text c => SSEEvent.text c
  | LoopEvent.tool_call n => SSEEvent.tool_call n
  | LoopEvent.tool_result n s e => SSEEvent.tool_result n s e
  | LoopEvent.retrying w => SSEEvent.retrying w

inductive BodyOutcome
  | ok (events : List LoopEvent)
  | fail (events : List LoopEvent) (message : String)

/-- The full sequence of SSE events one execution of streamAgent writes:
the body writes, then the single done write on normal exit (line 499), or
the error write followed by the done write in the catch arm (lines
503-504). -/
def streamAgentEvents : BodyOutcome → List SSEEvent
  | BodyOutcome.ok evs => evs.map LoopEvent.toSSE ++ [SSEEvent.done]
  | BodyOutcome.fail evs msg =>
    evs.map LoopEvent.toSSE ++ [SSEEvent.error msg, SSEEvent.done]

/-! ### Concrete data used by witnesses and counterexamples -/

def partyOf (members : List String) (start : Option Nat) : CFParty :=
  { participantType := ParticipantType.VIRTUAL
    teamName := some "team"
    members := some (members.map CFMember.mk)
    startTimeSeconds := start }

def subOf (cid t : Nat) (pt : ParticipantType) (st : Option Nat) : CFSubmission :=
  { contestId := some cid
    creationTimeSeconds := t
    author := some { participantType := pt, teamName := some "team",
                     members := some [CFMember.mk "automac"], startTimeSeconds := st } }

def exMsgs : List ConversationMessage :=
  [⟨Role.user, "m1"⟩, ⟨Role.assistant, "m2"⟩, ⟨Role.user, "m3"⟩, ⟨Role.assistant, "m4"⟩,
   ⟨Role.user, "m5"⟩, ⟨Role.assistant, "m6"⟩, ⟨Role.user, "m7"⟩, ⟨Role.assistant, "m8"⟩,
   ⟨Role.user, "m9"⟩, ⟨Role.assistant, "m10"⟩, ⟨Role.user, "m11"⟩]

/-- The session of the spec scenario: members include automac, start time 5000. -/
def simW : SimSession := ⟨100777, 5000, some "team", ["automac"]⟩

/-- A standings row with the right start time but no member intersection,
ranked better (120). -/
def rowTimeOnlyW : CFRanklistRow :=
  ⟨some (partyOf ["alice", "bob"] (some 5000)), 120, some []⟩

/-- The correct row: start time 5000 and member automac, ranked 177. -/
def rowMatchW : CFRanklistRow :=
  ⟨some (partyOf ["automac"] (some 5000)), 177, some []⟩

/-- Two distinct gym contests simulated at the same start second. -/
def envTie : ResolverEnv :=
  { pages := fun p =>
      if p == 0 then
        [subOf 100001 5000 ParticipantType.VIRTUAL (some 5000),
         subOf 100002 5000 ParticipantType.VIRTUAL (some 5000)]
      else []
    gymList := []
    standings := fun _ => Except.error "unavailable" }

def s10a : CFSubmission := ⟨some 100005, 1111, some (partyOf [] none)⟩
def s10b : CFSubmission := ⟨some 100005, 2222, some (partyOf [] none)⟩

def attemptsHardW : Nat → AttemptResult Nat :=
  fun _ => AttemptResult.failure [3] ⟨some 500, some "boom"⟩

/-! # Theorems -/

/-! ### Shared helper lemmas -/

theorem toSSE_ne_done (e : LoopEvent) : LoopEvent.toSSE e ≠ SSEEvent.done := by
  cases e <;> simp [LoopEvent.toSSE]

theorem count_done_map_toSSE (evs : List LoopEvent) :
    (evs.map LoopEvent.toSSE).count SSEEvent.done = 0 := by
  rw [List.count_eq_zero]
  intro hmem
  obtain ⟨e, _, he⟩ := List.mem_map.mp hmem
  exact toSSE_ne_done e he

theorem resolveEntry_congr (f1 f2 : Nat → Except String CFStandingsResponse)
    (sim : SimSession) (h : f1 sim.contestId = f2 sim.contestId) :
    resolveEntry f1 sim = resolveEntry f2 sim := by
  unfold resolveEntry
  rw [h]

theorem mkGymResult_congr (handle : String) (gl : List CFContest) (tids : List Nat)
    (f1 f2 : Nat → Except String CFStandingsResponse) (sim : SimSession)
    (h : f1 sim.contestId = f2 sim.contestId) :
    mkGymResult handle gl tids f1 sim = mkGymResult handle gl tids f2 sim := by
  unfold mkGymResult
  rw [resolveEntry_congr f1 f2 sim h]

/-- Claim C5: a scanned submission is a candidate session iff its contest id
exceeds the gym boundary 100000 and its author participation type is exactly
VIRTUAL; records with the upsolving type or a sub-boundary contest id are
excluded whatever their other fields (both exclusions are instances of the
right-to-left direction failing). -/
theorem C5_candidate_filter (s : CFSubmission) :
    isCandidate s = true ↔
      (100000 < s.contestId.getD 0 ∧
        s.author.map CFParty.participantType = some ParticipantType.VIRTUAL) := by
  simp [isCandidate, isGym, isVirtual]

/-- Claim C2: every execution of streamAgent writes exactly one done event,
as the very last write, on every exit path: after the body events on normal
termination, and immediately after the error event when an unhandled failure
reaches the catch arm. -/
theorem C2_done_terminal (evs : List LoopEvent) (m : String) :
    (streamAgentEvents (BodyOutcome.ok evs)).count SSEEvent.done = 1 ∧
    (streamAgentEvents (BodyOutcome.ok evs)).getLast? = some SSEEvent.done ∧
    (streamAgentEvents (BodyOutcome.fail evs m)).count SSEEvent.done = 1 ∧
    (streamAgentEvents (BodyOutcome.fail evs m)).getLast? = some SSEEvent.done ∧
    streamAgentEvents (BodyOutcome.ok evs) = evs.map LoopEvent.toSSE ++ [SSEEvent.done] ∧
    streamAgentEvents (BodyOutcome.fail evs m) =
      evs.map LoopEvent.toSSE ++ [SSEEvent.error m, SSEEvent.done] := by
  refine ⟨?_, ?_, ?_, ?_, rfl, rfl⟩
  · rw [streamAgentEvents, List.count_append, count_done_map_toSSE]
    rfl
  · rw [streamAgentEvents, List.getLast?_concat]
  · rw [streamAgentEvents, List.count_append, count_done_map_toSSE]
    rfl
  · rw [streamAgentEvents, List.getLast?_append]
    rfl

/-- Claim C9: every emitted GymResult has a non-empty members list, and when
the deduplicated session carries no member handles the emitted members list
is exactly the requesting handle alone. -/
theorem C9_members_nonempty (handle : String) (gl : List CFContest) (tids : List Nat)
    (f : Nat → Except String CFStandingsResponse) (sim : SimSession)
    (env : ResolverEnv) (l : Nat) (g : GymResult) :
    (mkGymResult handle gl tids f sim).members ≠ [] ∧
    (sim.members = [] → (mkGymResult handle gl tids f sim).members = [handle]) ∧
    (g ∈ (getGymSimulations env handle l).gyms → g.members ≠ []) := by
  have hmem : ∀ sim2 : SimSession, (mkGymResult handle gl tids f sim2).members ≠ [] := by
    intro sim2
    show (if sim2.members.isEmpty then [handle] else sim2.members) ≠ []
    by_cases h : sim2.members.isEmpty
    · simp [h]
    · simpa [h] using (by simpa [List.isEmpty_iff] using h)
  refine ⟨hmem sim, ?_, ?_⟩
  · intro h
    show (if sim.members.isEmpty then [handle] else sim.members) = [handle]
    simp [h]
  · intro hg
    unfold getGymSimulations at hg
    by_cases hemp : (sessionEntries env.pages l).isEmpty
    · simp [hemp] at hg
    · simp only [hemp, Bool.false_eq_true, if_false, List.mem_map] at hg
      obtain ⟨sim2, _, rfl⟩ := hg
      show (if sim2.members.isEmpty then [handle] else sim2.members) ≠ []
      by_cases h : sim2.members.isEmpty
      · simp [h]
      · simpa [h] using (by simpa [List.isEmpty_iff] using h)

theorem C9_members_nonempty_witness :
    (mkGymResult "coach" [] [] (fun _ => Except.error "x") ⟨100009, 42, none, []⟩).members
      = ["coach"] :=
  (C9_members_nonempty "coach" [] [] (fun _ => Except.error "x") ⟨100009, 42, none, []⟩
    { pages := fun _ => [], gymList := [], standings := fun _ => Except.error "x" } 0
    (mkGymResult "coach" [] [] (fun _ => Except.error "x") ⟨100009, 42, none, []⟩)).2.1 rfl

/-- Claim C8: standings-resolution failures are isolated per session.  Each
emitted record depends on the standings fetch only through the value at its
own contest id, a fetch failure for a session degrades exactly that record
to null rank and null solved, and the batch is always the full map over the
selected sessions — one record per session on every fetch outcome. -/
theorem C8_standings_failure_isolated (handle : String) (gl : List CFContest)
    (tids : List Nat) (f1 f2 : Nat → Except String CFStandingsResponse)
    (sim : SimSession) (e : String) (env : ResolverEnv) (l : Nat) :
    (f1 sim.contestId = f2 sim.contestId →
      mkGymResult handle gl tids f1 sim = mkGymResult handle gl tids f2 sim) ∧
    (f1 sim.contestId = Except.error e →
      (mkGymResult handle gl tids f1 sim).rank = none ∧
      (mkGymResult handle gl tids f1 sim).solved = none) ∧
    ((getGymSimulations env handle l).gyms =
      if (sessionEntries env.pages l).isEmpty then []
      else (topSessions env.pages l).map
        (mkGymResult handle env.gymList
          ((topSessions env.pages l).map SimSession.contestId) env.standings)) := by
  refine ⟨mkGymResult_congr handle gl tids f1 f2 sim, ?_, ?_⟩
  · intro herr
    have hst : resolveEntry f1 sim = none := by
      unfold resolveEntry
      rw [herr]
    constructor
    · show (resolveEntry f1 sim).map _ = none
      rw [hst]
      rfl
    · show (resolveEntry f1 sim).map _ = none
      rw [hst]
      rfl
  · unfold getGymSimulations
    by_cases hemp : (sessionEntries env.pages l).isEmpty
    · simp [hemp]
    · simp [hemp]

theorem C8_standings_failure_isolated_witness :
    (mkGymResult "h" [] [] (fun _ => Except.error "down") simW).rank = none ∧
    (mkGymResult "h" [] [] (fun _ => Except.error "down") simW).solved = none :=
  (C8_standings_failure_isolated "h" [] [] (fun _ => Except.error "down")
    (fun _ => Except.error "down") simW "down"
    { pages := fun _ => [], gymList := [], standings := fun _ => Except.error "down" } 0).2.1 rfl

/-! ### C4 — ordering and length of the resolver output -/

theorem sessDesc_total : ∀ a b : SimSession, sessDesc a b ∨ sessDesc b a :=
  fun a b => Nat.le_total b.startTimeSeconds a.startTimeSeconds

theorem sessDesc_trans :
    ∀ a b c : SimSession, sessDesc a b → sessDesc b c → sessDesc a c :=
  fun _ _ _ hab hbc => Nat.le_trans hbc hab

theorem topSessions_sorted (pages : Nat → List CFSubmission) (limit : Nat) :
    List.Pairwise sessDesc (topSessions pages limit) := by
  haveI : IsTotal SimSession sessDesc := ⟨sessDesc_total⟩
  haveI : IsTrans SimSession sessDesc := ⟨sessDesc_trans⟩
  exact List.Pairwise.sublist (List.take_sublist _ _)
    (List.sorted_insertionSort sessDesc (sessionsOf pages limit))

/-- The counterexample to claim C4 as stated: two distinct gym contests
simulated at the same start second give two deduplicated sessions with equal
startTimeSeconds, so the emitted list is not STRICTLY descending in the
session start time. -/
theorem C4_counterexample :
    ¬ List.Pairwise (fun a b => b.simulatedAtSeconds < a.simulatedAtSeconds)
        (getGymSimulations envTie "auto" 10).gyms := by
  intro hp
  have hmap := @List.Pairwise.map Nat GymResult
    (fun a b => b.simulatedAtSeconds < a.simulatedAtSeconds) _
    (fun a b => b < a) GymResult.simulatedAtSeconds (fun _ _ h => h) hp
  have hlist : (getGymSimulations envTie "auto" 10).gyms.map GymResult.simulatedAtSeconds
      = [5000, 5000] := by decide
  rw [hlist] at hmap
  have h55 : (5000 : Nat) < 5000 := by
    have := List.pairwise_cons.mp hmap
    exact this.1 5000 (by simp)
  omega

/-- Claim C4, amended: the returned gyms list is sorted in non-increasing
(descending, not necessarily strict) order of session start time, and its
length is exactly min(limit, number of distinct deduplicated sessions); in
particular zero candidate sessions yield an empty list, not an error.  The
claim as frozen says STRICTLY descending, which C4_counterexample refutes:
two different contests simulated in the same second tie on start time. -/
theorem C4_sorted_descending_length (env : ResolverEnv) (handle : String) (l : Nat) :
    List.Pairwise (fun a b => b.simulatedAtSeconds ≤ a.simulatedAtSeconds)
      (getGymSimulations env handle l).gyms ∧
    (getGymSimulations env handle l).gyms.length = min l (sessionsOf env.pages l).length := by
  unfold getGymSimulations
  by_cases hemp : (sessionEntries env.pages l).isEmpty
  · have hlen : (sessionsOf env.pages l).length = 0 := by
      unfold sessionsOf
      simp [List.isEmpty_iff.mp hemp]
    simp [hemp, hlen]
  · simp only [hemp, Bool.false_eq_true, if_false]
    constructor
    · exact @List.Pairwise.map GymResult SimSession sessDesc _
        (fun a b => b.simulatedAtSeconds ≤ a.simulatedAtSeconds)
        (mkGymResult handle env.gymList
          ((topSessions env.pages l).map SimSession.contestId) env.standings)
        (fun _ _ h => h) (topSessions_sorted env.pages l)
    · haveI : IsTotal SimSession sessDesc := ⟨sessDesc_total⟩
      haveI : IsTrans SimSession sessDesc := ⟨sessDesc_trans⟩
      have hperm : (sortedSessions env.pages l).length = (sessionsOf env.pages l).length :=
        (List.perm_insertionSort sessDesc (sessionsOf env.pages l)).length_eq
      simp [topSessions, List.length_take, hperm]

/-! ### C7 — history trimming -/

theorem flatPairs_length (ps : List (ConversationMessage × ConversationMessage)) :
    ((ps.map (fun p => [p.1, p.2])).flatten).length = 2 * ps.length := by
  induction ps with
  | nil => simp
  | cons p t ih => simp [ih]; omega

theorem trimHistory_some (msgs : List ConversationMessage) (lm : ConversationMessage)
    (h : msgs.getLast? = some lm) :
    trimHistory msgs =
      if (trimCore msgs).isEmpty || !((trimCore msgs).getLast? == some lm)
      then trimCore msgs ++ [lm] else trimCore msgs := by
  unfold trimHistory trimCore
  rw [h]

theorem trimCore_length (msgs : List ConversationMessage) :
    (trimCore msgs).length ≤ 8 := by
  unfold trimCore
  rw [flatPairs_length, List.length_drop]
  simp [MAX_HISTORY_TURNS]
  omega

/-- Claim C7: for every non-empty message list, trimHistory keeps at most the
4 most recent (user, assistant) pairs, always ends with the final message of
the input (the still-unanswered user message) even when the retained window
would exclude it, and therefore returns at most 9 messages. -/
theorem C7_trim_history (msgs : List ConversationMessage) (hne : msgs ≠ []) :
    (trimHistory msgs).length ≤ 9 ∧
    (trimHistory msgs).getLast? = msgs.getLast? ∧
    ∃ extra, trimHistory msgs = trimCore msgs ++ extra ∧ extra.length ≤ 1 := by
  obtain ⟨lm, hlm⟩ := Option.isSome_iff_exists.mp (List.getLast?_isSome.mpr hne)
  have htl := trimCore_length msgs
  rw [trimHistory_some msgs lm hlm]
  by_cases hc : ((trimCore msgs).isEmpty || !((trimCore msgs).getLast? == some lm)) = true
  · rw [if_pos hc]
    refine ⟨?_, ?_, [lm], rfl, by simp⟩
    · rw [List.length_append]
      simp only [List.length_singleton]
      omega
    · rw [List.getLast?_concat, hlm]
  · rw [if_neg hc]
    have hc2 : (trimCore msgs).isEmpty = false ∧
        ((trimCore msgs).getLast? == some lm) = true := by
      rcases Bool.or_eq_false_iff.mp (Bool.eq_false_iff.mpr hc) with ⟨h1, h2⟩
      exact ⟨h1, by simpa using h2⟩
    refine ⟨by omega, ?_, [], by simp, by simp⟩
    rw [hlm]
    exact eq_of_beq hc2.2

theorem C7_trim_history_witness :
    (trimHistory exMsgs).getLast? = exMsgs.getLast? ∧ (trimHistory exMsgs).length ≤ 9 :=
  ⟨(C7_trim_history exMsgs (by decide)).2.1, (C7_trim_history exMsgs (by decide)).1⟩

/-! ### C1 — two-key standings matching -/

/-- Claim C1: in Stage E, the matched standings row for a session is the
first row agreeing on BOTH the party start time and a member-handle
intersection; while such a row exists no row matching on start time alone is
ever selected, however early (better ranked) it appears; only when no row
satisfies both keys does the resolver fall back to the first member-only
match, and when that also fails the session is emitted with null rank and
null solved instead of aborting the request (getGymSimulations is total and
still returns a record for the session). -/
theorem C1_two_key_standings_match (sim : SimSession) (rows : List CFRanklistRow) :
    (∀ l1 r l2, rows = l1 ++ r :: l2 → twoKey sim r = true →
      (∀ x ∈ l1, twoKey sim x = false) → findTeamRow sim rows = some r) ∧
    ((∃ x ∈ rows, twoKey sim x = true) →
      ∀ r, findTeamRow sim rows = some r → twoKey sim r = true) ∧
    ((∀ x ∈ rows, twoKey sim x = false) →
      findTeamRow sim rows = rows.find? (fun r => byMember sim r)) ∧
    ((∀ x ∈ rows, byMember sim x = false) → findTeamRow sim rows = none) ∧
    (∀ (handle : String) (gl : List CFContest) (tids : List Nat)
      (f : Nat → Except String CFStandingsResponse) (data : CFStandingsResponse),
      f sim.contestId = Except.ok data → data.rows = some rows →
      (∀ x ∈ rows, byMember sim x = false) →
      (mkGymResult handle gl tids f sim).rank = none ∧
      (mkGymResult handle gl tids f sim).solved = none) := by
  have hall : (∀ x ∈ rows, byMember sim x = false) → findTeamRow sim rows = none := by
    intro hnone
    have h2 : ∀ x ∈ rows, twoKey sim x = false := by
      intro x hx
      simp [twoKey, hnone x hx]
    unfold findTeamRow
    rw [List.find?_eq_none.mpr (by intro x hx; simp [h2 x hx]),
      List.find?_eq_none.mpr (by intro x hx; simp [hnone x hx])]
    rfl
  refine ⟨?_, ?_, ?_, hall, ?_⟩
  · intro l1 r l2 hsplit hr hl1
    unfold findTeamRow
    rw [hsplit, List.find?_append,
      List.find?_eq_none.mpr (by intro x hx; simp [hl1 x hx]),
      List.find?_cons_of_pos _ hr]
    rfl
  · intro hex r hfind
    have hsome : (rows.find? (fun r => twoKey sim r)).isSome = true :=
      List.find?_isSome.mpr hex
    obtain ⟨r2, hr2⟩ := Option.isSome_iff_exists.mp hsome
    unfold findTeamRow at hfind
    rw [hr2] at hfind
    have : r2 = r := by
      simpa using hfind
    exact this ▸ List.find?_some hr2
  · intro htwo
    unfold findTeamRow
    rw [List.find?_eq_none.mpr (by intro x hx; simp [htwo x hx])]
    exact Option.none_or
  · intro handle gl tids f data hok hrows hnone
    have hst : resolveEntry f sim = none := by
      unfold resolveEntry
      rw [hok]
      simp only [hrows, Option.getD_some]
      rw [hall hnone]
    constructor
    · show (resolveEntry f sim).map _ = none
      rw [hst]
      rfl
    · show (resolveEntry f sim).map _ = none
      rw [hst]
      rfl

/-- The scenario frozen in the spec: two rows share the session start time;
the lower-ranked row (177) carrying the member handle automac is selected
over the better-ranked row (120) that lacks one. -/
theorem C1_two_key_standings_match_witness :
    findTeamRow simW [rowTimeOnlyW, rowMatchW] = some rowMatchW :=
  (C1_two_key_standings_match simW [rowTimeOnlyW, rowMatchW]).1
    [rowTimeOnlyW] rowMatchW [] rfl (by decide) (by decide)

/-! ### C10 — session start time: author start time with creation-time fallback -/

/-- Claim C10 (implicit): the start time used in the dedup key and stored as
the session startTimeSeconds is the author startTimeSeconds when present and
the submission creationTimeSeconds otherwise; consequently two candidate
submissions of the same contest whose author records lack startTimeSeconds
but whose creation times differ produce two distinct sessions. -/
theorem C10_start_time_fallback (s s1 s2 : CFSubmission) (t : Nat) :
    (s.author.bind CFParty.startTimeSeconds = some t → startTimeOf s = t) ∧
    (s.author.bind CFParty.startTimeSeconds = none →
      startTimeOf s = s.creationTimeSeconds) ∧
    (isCandidate s = true →
      processSub [] s = [(sessionKey s, mkSession s (startTimeOf s))] ∧
      sessionKey s = (s.contestId.getD 0, startTimeOf s) ∧
      (mkSession s (startTimeOf s)).startTimeSeconds = startTimeOf s) ∧
    (isCandidate s1 = true → isCandidate s2 = true →
      s1.contestId = s2.contestId →
      s1.author.bind CFParty.startTimeSeconds = none →
      s2.author.bind CFParty.startTimeSeconds = none →
      s1.creationTimeSeconds ≠ s2.creationTimeSeconds →
      ([s1, s2].foldl processSub []).length = 2) := by
  refine ⟨?_, ?_, ?_, ?_⟩
  · intro h
    unfold startTimeOf
    rw [h]
    rfl
  · intro h
    unfold startTimeOf
    rw [h]
    rfl
  · intro hc
    exact ⟨by simp [processSub, hc], rfl, rfl⟩
  · intro hc1 hc2 hcid hn1 hn2 hne
    have hk : sessionKey s1 ≠ sessionKey s2 := by
      intro he
      have h1 : startTimeOf s1 = s1.creationTimeSeconds := by
        unfold startTimeOf
        rw [hn1]
        rfl
      have h2 : startTimeOf s2 = s2.creationTimeSeconds := by
        unfold startTimeOf
        rw [hn2]
        rfl
      have := congrArg Prod.snd he
      simp only [sessionKey] at this
      rw [h1, h2] at this
      exact hne this
    have hstep1 : processSub [] s1 = [(sessionKey s1, mkSession s1 (startTimeOf s1))] := by
      simp [processSub, hc1]
    have hany : ([(sessionKey s1, mkSession s1 (startTimeOf s1))].any
        (fun e => e.1 == sessionKey s2)) = false := by
      simp [beq_eq_false_iff_ne.mpr hk]
    show (processSub (processSub [] s1) s2).length = 2
    rw [hstep1]
    unfold processSub
    rw [if_pos hc2, if_neg (by rw [hany]; exact Bool.false_ne_true)]
    rfl

theorem C10_start_time_fallback_witness :
    ([s10a, s10b].foldl processSub []).length = 2 :=
  (C10_start_time_fallback s10a s10a s10b 0).2.2.2
    (by decide) (by decide) rfl rfl rfl (by decide)

/-! ### C6 — deduplication -/

theorem charsLe_cons_iff (a b : Char) (as bs : List Char) :
    charsLe (a :: as) (b :: bs) = true ↔
      (a.toNat < b.toNat ∨ (¬ a.toNat < b.toNat ∧ ¬ b.toNat < a.toNat ∧ charsLe as bs = true)) := by
  simp only [charsLe]
  split_ifs with h1 h2
  · simp [h1]
  · simp [h1, h2]
  · simp [h1, h2]

theorem charsLe_total : ∀ x y : List Char, charsLe x y = true ∨ charsLe y x = true := by
  intro x
  induction x with
  | nil => intro y; left; rfl
  | cons a as ih =>
    intro y
    cases y with
    | nil => right; rfl
    | cons b bs =>
      by_cases hab : a.toNat < b.toNat
      · left; exact (charsLe_cons_iff a b as bs).mpr (Or.inl hab)
      · by_cases hba : b.toNat < a.toNat
        · right; exact (charsLe_cons_iff b a bs as).mpr (Or.inl hba)
        · rcases ih bs with h | h
          · left; exact (charsLe_cons_iff a b as bs).mpr (Or.inr ⟨hab, hba, h⟩)
          · right; exact (charsLe_cons_iff b a bs as).mpr (Or.inr ⟨hba, hab, h⟩)

theorem charsLe_trans :
    ∀ x y z : List Char, charsLe x y = true → charsLe y z = true → charsLe x z = true := by
  intro x
  induction x with
  | nil => intro y z _ _; rfl
  | cons a as ih =>
    intro y z hxy hyz
    cases y with
    | nil => simp [charsLe] at hxy
    | cons b bs =>
      cases z with
      | nil => simp [charsLe] at hyz
      | cons c cs =>
        rcases (charsLe_cons_iff a b as bs).mp hxy with hab | ⟨hab1, hab2, habr⟩ <;>
          rcases (charsLe_cons_iff b c bs cs).mp hyz with hbc | ⟨hbc1, hbc2, hbcr⟩
        · exact (charsLe_cons_iff a c as cs).mpr (Or.inl (lt_trans hab hbc))
        · have hbc : b.toNat = c.toNat := le_antisymm (not_lt.mp hbc2) (not_lt.mp hbc1)
          exact (charsLe_cons_iff a c as cs).mpr (Or.inl (hbc ▸ hab))
        · have hab : a.toNat = b.toNat := le_antisymm (not_lt.mp hab2) (not_lt.mp hab1)
          exact (charsLe_cons_iff a c as cs).mpr (Or.inl (hab ▸ hbc))
        · have hab : a.toNat = b.toNat := le_antisymm (not_lt.mp hab2) (not_lt.mp hab1)
          have hbc : b.toNat = c.toNat := le_antisymm (not_lt.mp hbc2) (not_lt.mp hbc1)
          refine (charsLe_cons_iff a c as cs).mpr (Or.inr ⟨?_, ?_, ih bs cs habr hbcr⟩)
          · rw [hab, hbc]; exact lt_irrefl _
          · rw [hab, hbc]; exact lt_irrefl _

theorem strLeB_total : ∀ a b : String, strLeB a b = true ∨ strLeB b a = true :=
  fun a b => charsLe_total a.data b.data

theorem strLeB_trans :
    ∀ a b c : String, strLeB a b = true → strLeB b c = true → strLeB a c = true :=
  fun a b c => charsLe_trans a.data b.data c.data

theorem sortHandles_sorted (hs : List String) :
    List.Sorted (fun a b => strLeB a b = true) (sortHandles hs) := by
  haveI : IsTotal String (fun a b => strLeB a b = true) := ⟨strLeB_total⟩
  haveI : IsTrans String (fun a b => strLeB a b = true) := ⟨fun a b c => strLeB_trans a b c⟩
  exact List.sorted_insertionSort _ hs

theorem processSub_not_cand (st : List ((Nat × Nat) × SimSession)) (s : CFSubmission)
    (h : isCandidate s = false) : processSub st s = st := by
  simp [processSub, h]

theorem assocFind_processSub (st : List ((Nat × Nat) × SimSession)) (s : CFSubmission)
    (k : Nat × Nat) :
    assocFind (processSub st s) k =
      (assocFind st k).or
        (if isCandidate s = true ∧ sessionKey s = k
         then some (mkSession s (startTimeOf s)) else none) := by
  by_cases hc : isCandidate s = true
  case neg =>
    rw [processSub_not_cand st s (Bool.eq_false_iff.mpr hc),
      if_neg (fun h => hc h.1), Option.or_none]
  case pos =>
    unfold processSub
    rw [if_pos hc]
    by_cases hmem : (st.any (fun e => e.1 == sessionKey s)) = true
    · rw [if_pos hmem]
      by_cases hk : sessionKey s = k
      · obtain ⟨e, hein, hekey⟩ := List.any_eq_true.mp hmem
        have hesome : (st.find? (fun e => e.1 == k)).isSome = true :=
          List.find?_isSome.mpr ⟨e, hein, by rw [← hk]; exact hekey⟩
        obtain ⟨p, hp⟩ := Option.isSome_iff_exists.mp hesome
        unfold assocFind
        rw [hp]
        rfl
      · rw [if_neg (fun h => hk h.2), Option.or_none]
    · rw [if_neg hmem]
      unfold assocFind
      rw [List.find?_append]
      cases hf : st.find? (fun e => e.1 == k) with
      | some p => rfl
      | none =>
        by_cases hk : sessionKey s = k
        · rw [if_pos ⟨hc, hk⟩]
          have : (sessionKey s == k) = true := beq_iff_eq.mpr hk
          simp [List.find?, this, hf]
        · rw [if_neg (fun h => hk h.2)]
          have : (sessionKey s == k) = false := beq_eq_false_iff_ne.mpr hk
          simp [List.find?, this, hf]

theorem assocFind_foldl (subs : List CFSubmission) :
    ∀ (acc : List ((Nat × Nat) × SimSession)) (k : Nat × Nat),
      assocFind (subs.foldl processSub acc) k =
        (assocFind acc k).or
          ((subs.find? (fun s => isCandidate s && (sessionKey s == k))).map
            (fun s => mkSession s (startTimeOf s))) := by
  induction subs with
  | nil =>
    intro acc k
    simp [Option.or_none]
  | cons s rest ih =>
    intro acc k
    rw [List.foldl_cons, ih (processSub acc s) k, assocFind_processSub]
    by_cases hp : (isCandidate s && (sessionKey s == k)) = true
    · have hck : isCandidate s = true ∧ (sessionKey s == k) = true := by simpa using hp
      have hfind : List.find? (fun s => isCandidate s && (sessionKey s == k)) (s :: rest)
          = some s := by
        simp only [List.find?, hp]
      rw [hfind, if_pos ⟨hck.1, eq_of_beq hck.2⟩, Option.or_assoc]
      rfl
    · have hpf : (isCandidate s && (sessionKey s == k)) = false := Bool.eq_false_iff.mpr hp
      have hfind : List.find? (fun s => isCandidate s && (sessionKey s == k)) (s :: rest)
          = List.find? (fun s => isCandidate s && (sessionKey s == k)) rest := by
        simp only [List.find?, hpf]
      have hnone : (if isCandidate s = true ∧ sessionKey s = k
          then some (mkSession s (startTimeOf s)) else none) = none := by
        rw [if_neg]
        intro h
        rw [h.1, beq_iff_eq.mpr h.2] at hpf
        simp at hpf
      rw [hfind, hnone, Option.or_none]

theorem keys_nodup_processSub (st : List ((Nat × Nat) × SimSession)) (s : CFSubmission)
    (h : (st.map Prod.fst).Nodup) : ((processSub st s).map Prod.fst).Nodup := by
  unfold processSub
  by_cases hc : isCandidate s = true
  · rw [if_pos hc]
    by_cases hmem : (st.any (fun e => e.1 == sessionKey s)) = true
    · rw [if_pos hmem]; exact h
    · rw [if_neg hmem, List.map_append]
      refine List.Nodup.append h (List.nodup_singleton _) ?_
      intro a ha hb
      have hkey : a = sessionKey s := by
        simpa using hb
      obtain ⟨e, hein, heq⟩ := List.mem_map.mp ha
      have : st.any (fun e => e.1 == sessionKey s) = true :=
        List.any_eq_true.mpr ⟨e, hein, beq_iff_eq.mpr (heq.trans hkey)⟩
      exact hmem this
  · rw [if_neg hc]; exact h

theorem keys_nodup_foldl (subs : List CFSubmission) :
    ∀ acc, ((acc : List ((Nat × Nat) × SimSession)).map Prod.fst).Nodup →
      ((subs.foldl processSub acc).map Prod.fst).Nodup := by
  induction subs with
  | nil => intro acc h; exact h
  | cons s rest ih =>
    intro acc h
    rw [List.foldl_cons]
    exact ih _ (keys_nodup_processSub acc s h)

theorem keys_nodup_scanPages (pages : Nat → List CFSubmission) (limit : Nat) :
    ∀ (fuel page : Nat) (acc : List ((Nat × Nat) × SimSession)),
      (acc.map Prod.fst).Nodup →
      ((scanPages pages limit fuel page acc).map Prod.fst).Nodup := by
  intro fuel
  induction fuel with
  | zero => intro page acc h; exact h
  | succ f ih =>
    intro page acc h
    rw [scanPages]
    by_cases h1 : (pages page).isEmpty
    · rw [if_pos h1]; exact h
    · rw [if_neg h1]
      by_cases h2 : (pages page).length < pageSize
      · rw [if_pos h2]; exact keys_nodup_foldl _ acc h
      · rw [if_neg h2]
        by_cases h3 : limit * 3 ≤ ((pages page).foldl processSub acc).length
        · rw [if_pos h3]; exact keys_nodup_foldl _ acc h
        · rw [if_neg h3]; exact ih (page + 1) _ (keys_nodup_foldl _ acc h)

/-- Claim C6: deduplication is first-seen-wins and idempotent — for any input
order of candidate submissions all records sharing a (contestId,
startTimeSeconds) key collapse to the single session built from the first
record seen with that key (so its team name and member set come from that
record), the stored member set is sorted, later records with the same key
leave the map unchanged, and the keys of the session map built by the full
paging scan are pairwise distinct. -/
theorem C6_dedup_first_seen (subs : List CFSubmission) (k : Nat × Nat)
    (st : List ((Nat × Nat) × SimSession)) (s : CFSubmission)
    (pages : Nat → List CFSubmission) (limit : Nat) :
    ((subs.foldl processSub []).map Prod.fst).Nodup ∧
    assocFind (subs.foldl processSub []) k =
      ((subs.find? (fun s => isCandidate s && (sessionKey s == k))).map
        (fun s => mkSession s (startTimeOf s))) ∧
    List.Sorted (fun a b => strLeB a b = true) (mkSession s (startTimeOf s)).members ∧
    processSub (processSub st s) s = processSub st s ∧
    ((sessionEntries pages limit).map Prod.fst).Nodup := by
  refine ⟨keys_nodup_foldl subs [] (by simp), ?_, sortHandles_sorted _, ?_, ?_⟩
  · rw [assocFind_foldl subs [] k]
    have : assocFind [] k = none := rfl
    rw [this, Option.none_or]
  · by_cases hc : isCandidate s = true
    · unfold processSub
      rw [if_pos hc, if_pos hc]
      by_cases hmem : (st.any (fun e => e.1 == sessionKey s)) = true
      · rw [if_pos hmem, if_pos hmem]
      · rw [if_neg hmem, if_pos ?_]
        rw [List.any_append]
        simp
    · rw [processSub_not_cand _ s (Bool.eq_false_iff.mpr hc),
        processSub_not_cand _ s (Bool.eq_false_iff.mpr hc)]
  · exact keys_nodup_scanPages pages limit maxPages 0 [] (by simp)

/-! ### C3 — bounded, rate-limit-only retry with linear capped backoff -/

theorem runRetry_attemptsRun_pos {α : Type} (attempts : Nat → AttemptResult α)
    (attempt remaining : Nat) :
    1 ≤ (runRetry attempts attempt remaining).attemptsRun := by
  cases remaining with
  | zero =>
    rw [runRetry]
    cases hatt : attempts attempt <;> simp
  | succ r =>
    rw [runRetry]
    cases hatt : attempts attempt with
    | success ys => simp
    | failure pre e => cases h429 : is429 e <;> simp [h429]

theorem runRetry_attemptsRun_le {α : Type} (attempts : Nat → AttemptResult α) :
    ∀ remaining attempt : Nat,
      (runRetry attempts attempt remaining).attemptsRun ≤ remaining + 1 := by
  intro remaining
  induction remaining with
  | zero =>
    intro attempt
    rw [runRetry]
    cases hatt : attempts attempt <;> simp
  | succ r ih =>
    intro attempt
    rw [runRetry]
    cases hatt : attempts attempt with
    | success ys => simp
    | failure pre e =>
      cases h429 : is429 e with
      | false => simp [h429]
      | true =>
        have := ih (attempt + 1)
        simp [h429]
        omega

theorem runRetry_nonratelimit {α : Type} (attempts : Nat → AttemptResult α)
    (attempt remaining : Nat) (pre : List α) (e : ErrInfo)
    (hatt : attempts attempt = AttemptResult.failure pre e) (h429 : is429 e = false) :
    runRetry attempts attempt remaining =
      { sse := [], sleeps := [], yielded := pre, thrown := some e, attemptsRun := 1 } := by
  cases remaining with
  | zero => rw [runRetry, hatt]
  | succ r =>
    rw [runRetry, hatt]
    simp [h429]

theorem runRetry_only429 {α : Type} (attempts : Nat → AttemptResult α) :
    ∀ remaining attempt k : Nat,
      k + 1 < (runRetry attempts attempt remaining).attemptsRun →
      ∃ pre e, attempts (attempt + k) = AttemptResult.failure pre e ∧ is429 e = true := by
  intro remaining
  induction remaining with
  | zero =>
    intro attempt k h
    rw [runRetry] at h
    cases hatt : attempts attempt with
    | success ys => rw [hatt] at h; simp at h
    | failure pre e => rw [hatt] at h; simp at h
  | succ r ih =>
    intro attempt k h
    rw [runRetry] at h
    cases hatt : attempts attempt with
    | success ys => rw [hatt] at h; simp at h
    | failure pre e =>
      rw [hatt] at h
      cases h429 : is429 e with
      | false => simp [h429] at h
      | true =>
        simp only [h429, if_true] at h
        cases k with
        | zero => exact ⟨pre, e, by rw [Nat.add_zero]; exact hatt, h429⟩
        | succ j =>
          have hj : j + 1 < (runRetry attempts (attempt + 1) r).attemptsRun := by
            omega
          obtain ⟨pre2, e2, ha, h4⟩ := ih (attempt + 1) j hj
          refine ⟨pre2, e2, ?_, h4⟩
          rw [show attempt + (j + 1) = attempt + 1 + j by omega]
          exact ha

theorem runRetry_trace {α : Type} (attempts : Nat → AttemptResult α) :
    ∀ remaining attempt : Nat,
      (runRetry attempts attempt remaining).sse =
        (List.range ((runRetry attempts attempt remaining).attemptsRun - 1)).map
          (fun i => SSEEvent.retrying (min 60 (15 * (attempt + i + 1)))) ∧
      (runRetry attempts attempt remaining).sleeps =
        (List.range ((runRetry attempts attempt remaining).attemptsRun - 1)).map
          (fun i => min 60 (15 * (attempt + i + 1))) := by
  intro remaining
  induction remaining with
  | zero =>
    intro attempt
    rw [runRetry]
    cases hatt : attempts attempt <;> simp
  | succ r ih =>
    intro attempt
    rw [runRetry]
    cases hatt : attempts attempt with
    | success ys => simp
    | failure pre e =>
      cases h429 : is429 e with
      | false => simp [h429]
      | true =>
        simp only [h429, if_true]
        obtain ⟨ihs, ihl⟩ := ih (attempt + 1)
        have hpos := runRetry_attemptsRun_pos attempts (attempt + 1) r
        have hn : 1 + (runRetry attempts (attempt + 1) r).attemptsRun - 1 =
            ((runRetry attempts (attempt + 1) r).attemptsRun - 1) + 1 := by omega
        have harg : ∀ i : Nat, attempt + 1 + i + 1 = attempt + Nat.succ i + 1 := by
          intro i
          omega
        constructor
        · show SSEEvent.retrying (min 60 (15 * (attempt + 1))) ::
            (runRetry attempts (attempt + 1) r).sse = _
          rw [ihs, hn, List.range_succ_eq_map, List.map_cons, List.map_map]
          refine congrArg₂ List.cons (by rw [Nat.add_zero]) ?_
          refine List.map_congr_left ?_
          intro i _
          show SSEEvent.retrying (min 60 (15 * (attempt + 1 + i + 1))) = _
          rw [harg i]
          rfl
        · show (min 60 (15 * (attempt + 1))) ::
            (runRetry attempts (attempt + 1) r).sleeps = _
          rw [ihl, hn, List.range_succ_eq_map, List.map_cons, List.map_map]
          refine congrArg₂ List.cons (by rw [Nat.add_zero]) ?_
          refine List.map_congr_left ?_
          intro i _
          show (min 60 (15 * (attempt + 1 + i + 1))) = _
          rw [harg i]
          rfl

/-- Claim C3: streamEventsWithRetry runs at most maxRetries (default 3)
attempts beyond the first; it retries only rate-limit failures (HTTP status
429 or a message containing rate_limit) and re-throws any other failure
immediately after a single attempt; before each retry it writes one retrying
event carrying waitSeconds = min(60, 15 * (attempt index + 1)) and sleeps for
exactly that duration. -/
theorem C3_retry_bounded_rate_limit_only {α : Type} (attempts : Nat → AttemptResult α)
    (maxRetries k : Nat) (pre : List α) (e : ErrInfo) :
    (streamEventsWithRetry attempts maxRetries).attemptsRun ≤ maxRetries + 1 ∧
    (attempts 0 = AttemptResult.failure pre e → is429 e = false →
      streamEventsWithRetry attempts maxRetries =
        { sse := [], sleeps := [], yielded := pre, thrown := some e, attemptsRun := 1 }) ∧
    (k + 1 < (streamEventsWithRetry attempts maxRetries).attemptsRun →
      ∃ pre2 e2, attempts k = AttemptResult.failure pre2 e2 ∧ is429 e2 = true) ∧
    (streamEventsWithRetry attempts maxRetries).sse =
      (List.range ((streamEventsWithRetry attempts maxRetries).attemptsRun - 1)).map
        (fun i => SSEEvent.retrying (min 60 (15 * (i + 1)))) ∧
    (streamEventsWithRetry attempts maxRetries).sleeps =
      (List.range ((streamEventsWithRetry attempts maxRetries).attemptsRun - 1)).map
        (fun i => min 60 (15 * (i + 1))) ∧
    streamEventsWithRetryDefault attempts = streamEventsWithRetry attempts 3 := by
  obtain ⟨hs, hl⟩ := runRetry_trace attempts maxRetries 0
  simp only [streamEventsWithRetry]
  refine ⟨runRetry_attemptsRun_le attempts maxRetries 0, ?_, ?_, ?_, ?_, rfl⟩
  · intro hatt h429
    exact runRetry_nonratelimit attempts 0 maxRetries pre e hatt h429
  · intro hk
    obtain ⟨pre2, e2, ha, h4⟩ := runRetry_only429 attempts maxRetries 0 k hk
    rw [Nat.zero_add] at ha
    exact ⟨pre2, e2, ha, h4⟩
  · rw [hs]
    refine List.map_congr_left ?_
    intro i _
    rw [Nat.zero_add]
  · rw [hl]
    refine List.map_congr_left ?_
    intro i _
    rw [Nat.zero_add]

theorem C3_retry_bounded_rate_limit_only_witness :
    streamEventsWithRetry attemptsHardW 3 =
      { sse := [], sleeps := [], yielded := [3],
        thrown := some ⟨some 500, some "boom"⟩, attemptsRun := 1 } :=
  (C3_retry_bounded_rate_limit_only attemptsHardW 3 0 [3] ⟨some 500, some "boom"⟩).2.1
    rfl (by decide)
